import Mathlib

/-!
# A shallow embedding of the Akash load balancer's dispatch core

This file models the connection-dispatch engine of the Akash L4 load
balancer (Go sources: `core/core.go`, `core/health.go`, `main.go`) and
proves or refutes the specification's claims about it.

Modelling conventions:
* Go heap objects (`*Backend`) are identified with their position in
  `LoadBalancer.Backends`; Go pointer equality between backends becomes
  index equality (each backend is a distinct allocation in the program,
  so the `for i, backendCheck := range lb.Backends` pointer-search in
  `GetNextBackend` recovers exactly the position the `PathRoutes` entry
  points to).  A `PathRoutes` map entry is therefore a `String × Nat`
  pair, and Go's unspecified map iteration order is modelled by the
  order of the list.
* Mutation is explicit state passing: every function returns the updated
  `LoadBalancer`.
* `int32` counters are `Int`; the rotation counter (`lb.Index`), which is
  updated by `atomic.AddInt32` and then reduced mod the backend count, is
  wrapped through `wrap32` exactly where the source performs 32-bit
  arithmetic.  Go's `%` on `int` is truncated remainder, modelled by
  `goMod`.
* Code paths on which Go panics (negative or out-of-range slice index)
  return `none`; `GetNextBackend` therefore produces
  `Option (Option Nat × Int × LoadBalancer)`: `none` for a panic, and
  otherwise the chosen backend's position (`none` when the Go function
  returns a nil backend), the `int` index the function returns, and the
  post-call state.  The returned release closure is modelled by
  `releaseConn`, applied to the chosen backend's position.
-/

namespace Akash

/-- `core.UserConfig` (fields the dispatch core reads). -/
structure UserConfig where
  host : String
  port : String
  algorithm : String
  maxConnections : Int
  timeoutSeconds : Int
  healthCheckFreq : Int
  deriving Repr, DecidableEq

/-- `core.Backend`: one downstream server (its `sync.Mutex` guards
in-place mutation in Go and has no observable state, so it is dropped). -/
structure Backend where
  address : String
  weight : Int
  isHealthy : Bool
  activeConnections : Int
  currentWeight : Int
  paths : List String
  deriving Repr, DecidableEq

/-- `core.Algorithm` (the four values produced by `core.ParseAlgorithm`). -/
inductive Algorithm where
  | roundRobin
  | leastConnections
  | ipHash
  | weightedRoundRobin
  deriving Repr, DecidableEq

/-- `core.ParseAlgorithm`: unknown names fall back to round robin. -/
def ParseAlgorithm (name : String) : Algorithm :=
  match name.toLower with
  | "round_robin" => .roundRobin
  | "least_conn" => .leastConnections
  | "ip_hash" => .ipHash
  | "w_round_robin" => .weightedRoundRobin
  | _ => .roundRobin

/-- `core.LoadBalancer`. -/
structure LoadBalancer where
  config : UserConfig
  backends : List Backend
  algo : Algorithm
  connectionCount : Int
  index : Int
  backendCounts : List Int
  backendFails : List Int
  pathRoutes : List (String × Nat)
  deriving Repr, DecidableEq

/-- 32-bit two's-complement wraparound, as performed by `atomic.AddInt32`. -/
def wrap32 (x : Int) : Int := (x + 2 ^ 31) % 2 ^ 32 - 2 ^ 31

/-- Go's `%` on integers: truncated remainder (the sign follows the
dividend).  Only ever applied here with a positive divisor. -/
def goMod (a b : Int) : Int := if a < 0 then -((-a) % b) else a % b

/-- Apply `f` to the element at position `i` (identity when out of
range; every use below corresponds to a mutation through a valid Go
pointer or in-range index). -/
def modifyAt (f : Backend → Backend) : List Backend → Nat → List Backend
  | [], _ => []
  | b :: bs, 0 => f b :: bs
  | b :: bs, n + 1 => b :: modifyAt f bs n

/-- Add `d` to the integer at position `i` (identity when out of range). -/
def bumpAt (d : Int) : List Int → Nat → List Int
  | [], _ => []
  | x :: xs, 0 => (x + d) :: xs
  | x :: xs, n + 1 => x :: bumpAt d xs n

/-- FNV-1a, 32 bit (`hash/fnv`, `fnv.New32a`): offset basis 2166136261,
prime 16777619, xor then multiply per byte, modulo `2 ^ 32`. -/
def fnv32a (bytes : List Nat) : Nat :=
  bytes.foldl (fun h b => ((h ^^^ b) * 16777619) % 2 ^ 32) 2166136261

/-- UTF-8 bytes of a string, as hashed by `h.Write([]byte(host))`. -/
def utf8Bytes (s : String) : List Nat := s.toUTF8.toList.map (·.toNat)

/-- Split a character list at its last colon: `some (before, after)`
when a colon exists. -/
def splitLastColon : List Char → Option (List Char × List Char)
  | [] => none
  | c :: rest =>
    match splitLastColon rest with
    | some (h, p) => some (c :: h, p)
    | none => if c = ':' then some ([], rest) else none

/-- The host half of Go stdlib `net.SplitHostPort`, as used by the
IP-hash branch: on success the part before the last colon, and on a
parse error `GetNextBackend` falls back to hashing the whole client
address (simplified model of the stdlib routine; no claim here depends
on its exact value, only on it being a deterministic function of the
client address). -/
def hostOfAddress (s : String) : String :=
  match splitLastColon s.data with
  | some (h, _) => String.mk h
  | none => s

/-- `strings.HasPrefix(s, p)`, over the characters of the strings
(byte-level in Go; identical on the valid UTF-8 the program handles). -/
def startsWithGo (s p : String) : Bool := p.data.isPrefixOf s.data

/-- The path-routing loop at the top of `core.GetNextBackend`
(lines 82–102 of `core/core.go`): the first route whose prefix matches
the request path and whose backend is healthy gets its backend's
`ActiveConnections` incremented, and its position is recorded in the
outer `backend`/`idx` variables; unhealthy matches are skipped.
`none` models the (unreachable for routes built by the program) panic of
dereferencing a dangling route. -/
def pathRouteScan (backends : List Backend) (path : String) :
    List (String × Nat) → Option (List Backend × Option Nat)
  | [] => some (backends, none)
  | (p, j) :: rest =>
    if startsWithGo path p then
      match backends.get? j with
      | none => none
      | some b =>
        if b.isHealthy then
          some (modifyAt (fun bb =>
            { bb with activeConnections := bb.activeConnections + 1 }) backends j, some j)
        else
          pathRouteScan backends path rest
    else
      pathRouteScan backends path rest

/-- The round-robin retry loop (`for attempts := 0; attempts < len; ...`):
advance `lb.Index` (32-bit, atomically), reduce mod the backend count,
skip unhealthy candidates.  Returns the position found (if any) and the
final rotation counter; `none` models the panic of indexing with a
negative remainder. -/
def rrLoop (backends : List Backend) : Int → Nat → Option (Option Nat × Int)
  | index, 0 => some (none, index)
  | index, n + 1 =>
    let index' := wrap32 (index + 1)
    let i := goMod index' (backends.length : Int)
    if 0 ≤ i then
      match backends.get? i.toNat with
      | none => none
      | some candidate =>
        if candidate.isHealthy then some (some i.toNat, index')
        else rrLoop backends index' n
    else none

/-- The least-connections scan (`for i := 1; i < len; ...`): first
minimum wins; `i` is the absolute position of the head of the remaining
list. -/
def lcScan : Nat → Nat → Int → List Backend → Nat
  | _, minIdx, _, [] => minIdx
  | i, minIdx, minConn, b :: rest =>
    if b.activeConnections < minConn then lcScan (i + 1) i b.activeConnections rest
    else lcScan (i + 1) minIdx minConn rest

/-- The smooth-weighted-round-robin scan: every healthy backend's
`CurrentWeight` is increased by its static `Weight` in place, and the
first backend whose increased current weight strictly exceeds the
running maximum (initially `-1`) becomes the selection. Returns the
updated backend list and the selected position. -/
def wrrScan : Nat → Int → Option Nat → List Backend → List Backend × Option Nat
  | _, _, selected, [] => ([], selected)
  | i, maxW, selected, b :: rest =>
    if b.isHealthy then
      let b' := { b with currentWeight := b.currentWeight + b.weight }
      let (maxW', selected') :=
        if b'.currentWeight > maxW then (b'.currentWeight, some i) else (maxW, selected)
      let (rest', sel) := wrrScan (i + 1) maxW' selected' rest
      (b' :: rest', sel)
    else
      let (rest', sel) := wrrScan (i + 1) maxW selected rest
      (b :: rest', sel)

/-- `core.GetNextBackend` (`core/core.go`, lines 74–228).

Result: `none` for a Go panic, otherwise
`some (chosen, returnedIdx, lb')` where `chosen` is the position of the
backend the function returns (`none` when it returns nil),
`returnedIdx` is the `int` index it returns, and `lb'` the state after
the call.  Faithful details:

* the path-routing loop runs first and its selection is then fed into
  the same `backend`/`idx` variables the algorithm switch writes;
* in the round-robin arm the source declares a *new* `idx` with `:=`,
  shadowing the outer `idx`, so the outer `idx` keeps its prior value
  (`0`, or the path-matched position) even when the loop picks a
  backend — exactly as in the source;
* `lb.ConnectionCount` and `lb.BackendCounts[idx]` are incremented
  before the nil-backend check, so these increments also happen when
  the function returns nil;
* the `default:` switch arm (identical to round robin) is unreachable
  for the four values `ParseAlgorithm` produces and is not modelled
  separately. -/
def GetNextBackend (lb : LoadBalancer) (clientAddress path : String) :
    Option (Option Nat × Int × LoadBalancer) :=
  if lb.backends.length = 0 then
    some (none, -1, lb)
  else
    match pathRouteScan lb.backends path lb.pathRoutes with
    | none => none
    | some (bs₁, pathSel) =>
      let step : Option (List Backend × Int × Option Nat × Nat) :=
        match lb.algo with
        | .roundRobin =>
          (rrLoop bs₁ lb.index bs₁.length).map fun r =>
            (bs₁, r.2,
             match r.1 with
             | some i => some i
             | none => pathSel,
             pathSel.getD 0)
        | .leastConnections =>
          match bs₁ with
          | [] => none
          | b₀ :: rest =>
            let minIdx := lcScan 1 0 b₀.activeConnections rest
            some (modifyAt (fun b =>
                    { b with activeConnections := b.activeConnections + 1 }) bs₁ minIdx,
                  lb.index, some minIdx, minIdx)
        | .ipHash =>
          let host := hostOfAddress clientAddress
          let hashVal := fnv32a (utf8Bytes host)
          let i := goMod (hashVal : Int) (bs₁.length : Int)
          some (bs₁, lb.index, some i.toNat, i.toNat)
        | .weightedRoundRobin =>
          let total := (bs₁.map (·.weight)).sum
          let (bs₂, selected) := wrrScan 0 (-1) none bs₁
          match selected with
          | some j =>
            some (modifyAt (fun b =>
                    { b with currentWeight := b.currentWeight - total }) bs₂ j,
                  lb.index, some j, j)
          | none => some (bs₂, lb.index, pathSel, pathSel.getD 0)
      match step with
      | none => none
      | some (bs', index', chosen, idx) =>
        if idx < lb.backendCounts.length then
          let lb' : LoadBalancer := { lb with
            backends := bs'
            index := index'
            connectionCount := lb.connectionCount + 1
            backendCounts := bumpAt 1 lb.backendCounts idx }
          match chosen with
          | none => some (none, -1, lb')
          | some j => some (some j, (idx : Int), lb')
        else none

/-- The release closure `GetNextBackend` returns for a chosen backend:
decrement the chosen backend's `ActiveConnections` and the global
`ConnectionCount`. -/
def releaseConn (lb : LoadBalancer) (chosenIdx : Nat) : LoadBalancer :=
  { lb with
    backends := modifyAt (fun b =>
      { b with activeConnections := b.activeConnections - 1 }) lb.backends chosenIdx
    connectionCount := lb.connectionCount - 1 }

/-- `core.StartHealthChecks` (`core/health.go`, lines 10–26): the probe
interval, in nanoseconds (`time.Duration`), computed from the configured
`health_check_freq` (seconds).  The source attempts to substitute a
default when the configured frequency is zero — by multiplying the zero
by 19. -/
def healthCheckFreq (healthCheckFreqSeconds : Int) : Int :=
  let freq := healthCheckFreqSeconds * 1000000000
  if freq = 0 then freq * 19 else freq

/-- Outcome of one accepted connection in the accept loop of `main.go`. -/
inductive AcceptOutcome where
  | closedShuttingDown
  | closedNoBackend (lb : LoadBalancer)
  | dialBackend (address : String) (lb : LoadBalancer)
  | panicked
  deriving Repr, DecidableEq

/-- The per-connection decision path of the accept loop in `main.go`
(lines 106–153), from a successfully accepted client connection up to
the point where `net.Dial` is (or is not) invoked: if the shutdown flag
is set the client is closed; otherwise `GetNextBackend` runs (with the
literal path `"/"`); a nil backend closes the client; otherwise
`net.Dial("tcp", backend.Address)` is attempted.  Metrics, the wait
group and the tracked-connection set are external collaborators and are
not part of the decision. -/
def acceptStep (shuttingDown : Bool) (lb : LoadBalancer) (remoteAddr : String) :
    AcceptOutcome :=
  if shuttingDown then .closedShuttingDown
  else
    match GetNextBackend lb remoteAddr "/" with
    | none => .panicked
    | some (none, _, lb') => .closedNoBackend lb'
    | some (some j, _, lb') =>
      match lb'.backends.get? j with
      | none => .panicked
      | some b => .dialBackend b.address lb'

/-- A configuration record used by the concrete states below. -/
def cfg0 : UserConfig :=
  { host := "", port := "1902", algorithm := "round_robin",
    maxConnections := 100, timeoutSeconds := 5, healthCheckFreq := 0 }

/-- Build a backend (address, healthy, weight, current weight, active
connections, path set). -/
def mkB (addr : String) (h : Bool) (w cw ac : Int) (ps : List String) : Backend :=
  { address := addr, weight := w, isHealthy := h, activeConnections := ac,
    currentWeight := cw, paths := ps }

/-- The backend position a `GetNextBackend` call chooses (`none` when
the call returns a nil backend or panics). -/
def chosenOf : Option (Option Nat × Int × LoadBalancer) → Option Nat
  | some (c, _, _) => c
  | none => none

/-- The address `net.Dial` is invoked with, when the accept loop reaches
the dial. -/
def AcceptOutcome.dialedAddress : AcceptOutcome → Option String
  | .dialBackend a _ => some a
  | _ => none

/-- The state after a round-robin dispatch whose retry loop finished
with rotation counter `index'` and no path-route match: the global
connection counter and `BackendCounts[0]` advance (the round-robin arm
never writes the outer `idx`). -/
def rrAfter (lb : LoadBalancer) (index' : Int) : LoadBalancer :=
  { lb with
    index := index'
    connectionCount := lb.connectionCount + 1
    backendCounts := bumpAt 1 lb.backendCounts 0 }

/-- The positions chosen by `n` consecutive sequential dispatches, as
issued by the accept loop (client address `"cl"`, path `"/"`); `none`
as soon as a dispatch panics or returns a nil backend. -/
def chosenSeq (lb : LoadBalancer) : Nat → Option (List Nat)
  | 0 => some []
  | n + 1 =>
    match GetNextBackend lb "cl" "/" with
    | some (some j, _, lb') => (chosenSeq lb' n).map (fun l => j :: l)
    | _ => none

/-- The position chosen by the `n`-th (0-based) of a run of sequential
dispatches; `none` if any dispatch up to it panics or fails. -/
def nthPick (lb : LoadBalancer) : Nat → Option Nat
  | 0 =>
    match GetNextBackend lb "cl" "/" with
    | some (some j, _, _) => some j
    | _ => none
  | n + 1 =>
    match GetNextBackend lb "cl" "/" with
    | some (some _, _, lb') => nthPick lb' n
    | _ => none

/-- A two-backend weighted-round-robin state with static weights 3 and
1, parameterised by the two current weights, the global connection
counter and the two served counters. -/
def wrrLB (ca cb cc b0 b1 : Int) : LoadBalancer :=
  { config := cfg0,
    backends := [mkB "a:1" true 3 ca 0 [], mkB "b:1" true 1 cb 0 []],
    algo := .weightedRoundRobin, connectionCount := cc, index := -1,
    backendCounts := [b0, b1], backendFails := [0, 0], pathRoutes := [] }

/-- Current weight of the weight-3 backend at phase `r` of the 4-step
smooth-weighted-round-robin cycle (before the selection). -/
def cwA (r : Nat) : Int := [0, -1, -2, 1].getD (r % 4) 0

/-- Current weight of the weight-1 backend at phase `r` of the cycle. -/
def cwB (r : Nat) : Int := [0, 1, 2, -1].getD (r % 4) 0

/-- The backend picked at phase `r` of the cycle: the weight-1 backend
exactly at phase 2, the weight-3 backend otherwise. -/
def wrrPat (r : Nat) : Nat := if r % 4 = 2 then 1 else 0

/-- The C5 start state: weights {3, 1}, both current weights zero. -/
def lbC5 : LoadBalancer := wrrLB 0 0 0 0 0

/-- C1 state: two healthy backends; backend 0 declares path `"/api"`
and `PathRoutes` maps `"/api"` to it; round robin is configured with
the rotation counter positioned so that the algorithm's own pick is
backend 1. -/
def lbC1 : LoadBalancer :=
  { config := cfg0,
    backends := [mkB "a:1" true 0 0 0 ["/api"], mkB "b:1" true 0 0 0 []],
    algo := .roundRobin, connectionCount := 0, index := 0,
    backendCounts := [0, 0], backendFails := [0, 0],
    pathRoutes := [("/api", 0)] }

/-- C2 state: the global active-connection count already equals the
configured maximum (1), and one healthy backend exists. -/
def lbC2 : LoadBalancer :=
  { config := { cfg0 with maxConnections := 1 },
    backends := [mkB "a:1" true 0 0 0 []],
    algo := .roundRobin, connectionCount := 1, index := -1,
    backendCounts := [0], backendFails := [0], pathRoutes := [] }

/-- C3 state: round robin with a single unhealthy backend — selection
must fail. -/
def lbC3 : LoadBalancer :=
  { config := cfg0, backends := [mkB "a:1" false 0 0 0 []],
    algo := .roundRobin, connectionCount := 0, index := 0,
    backendCounts := [0], backendFails := [0], pathRoutes := [] }

/-- C6 witness state: three healthy backends under round robin, the
rotation counter at its start value `-1`. -/
def lbC6w : LoadBalancer :=
  { config := cfg0,
    backends := [mkB "a:1" true 0 0 0 [], mkB "b:1" true 0 0 0 [],
                 mkB "c:1" true 0 0 0 []],
    algo := .roundRobin, connectionCount := 0, index := -1,
    backendCounts := [0, 0, 0], backendFails := [0, 0, 0], pathRoutes := [] }

/-- C7 state: round robin over an unhealthy backend 0 and a healthy
backend 1, with the rotation counter positioned so the first attempt
lands on the unhealthy backend. -/
def lbC7 : LoadBalancer :=
  { config := cfg0,
    backends := [mkB "a:1" false 0 0 0 [], mkB "b:1" true 0 0 0 []],
    algo := .roundRobin, connectionCount := 0, index := 1,
    backendCounts := [0, 0], backendFails := [0, 0], pathRoutes := [] }

/-- C8 state: round robin over two healthy (distinct) backends, with
the rotation counter positioned so the loop picks position 1. -/
def lbC8 : LoadBalancer :=
  { config := cfg0,
    backends := [mkB "a:1" true 0 0 0 [], mkB "b:1" true 0 0 0 []],
    algo := .roundRobin, connectionCount := 0, index := 0,
    backendCounts := [0, 0], backendFails := [0, 0], pathRoutes := [] }

/-- C9 state: round robin with one healthy backend whose active count
is 5 before selection. -/
def lbC9 : LoadBalancer :=
  { config := cfg0, backends := [mkB "a:1" true 0 0 5 []],
    algo := .roundRobin, connectionCount := 7, index := -1,
    backendCounts := [0], backendFails := [0], pathRoutes := [] }

/-- C9 witness state: least connections over a single idle backend. -/
def lbW9 : LoadBalancer :=
  { config := cfg0, backends := [mkB "a:1" true 0 0 0 []],
    algo := .leastConnections, connectionCount := 0, index := -1,
    backendCounts := [0], backendFails := [0], pathRoutes := [] }

/-- The state `GetNextBackend` leaves behind on `lbW9`: the backend's
active count and the counters advanced. -/
def lbW9After : LoadBalancer :=
  { lbW9 with
    backends := [mkB "a:1" true 0 0 1 []]
    connectionCount := 1
    backendCounts := [1] }

/-- An empty-registry state. -/
def lbEmpty : LoadBalancer :=
  { config := cfg0, backends := [], algo := .leastConnections,
    connectionCount := 3, index := 2, backendCounts := [],
    backendFails := [], pathRoutes := [("/x", 0)] }

/-! ## Supporting lemmas -/

theorem wrap32_eq_self {x : Int} (h₁ : -(2 ^ 31) ≤ x) (h₂ : x < 2 ^ 31) :
    wrap32 x = x := by
  unfold wrap32
  omega

theorem goMod_of_nonneg {a : Int} (b : Int) (h : 0 ≤ a) : goMod a b = a % b := by
  unfold goMod
  rw [if_neg (by omega)]

theorem bumpAt_length (d : Int) (xs : List Int) (i : Nat) :
    (bumpAt d xs i).length = xs.length := by
  induction xs generalizing i with
  | nil => rfl
  | cons x xs ih =>
    cases i with
    | zero => rfl
    | succ n => simpa [bumpAt] using ih n

theorem modifyAt_length (f : Backend → Backend) (bs : List Backend) (i : Nat) :
    (modifyAt f bs i).length = bs.length := by
  induction bs generalizing i with
  | nil => rfl
  | cons b bs ih =>
    cases i with
    | zero => rfl
    | succ n => simpa [modifyAt] using ih n

theorem rrLoop_all_unhealthy (bs : List Backend) (hbs : bs ≠ [])
    (hunh : ∀ b ∈ bs, b.isHealthy = false) :
    ∀ (n : Nat) (idx : Int), 0 ≤ idx + 1 → idx + n < 2 ^ 31 →
      rrLoop bs idx n = some (none, idx + n) := by
  intro n
  induction n with
  | zero => intro idx h1 h2; simp [rrLoop]
  | succ n ih =>
    intro idx h1 h2
    have hlen : 0 < (bs.length : Int) := by
      exact_mod_cast List.length_pos.mpr hbs
    have hw : wrap32 (idx + 1) = idx + 1 := wrap32_eq_self (by omega) (by omega)
    have hg : goMod (idx + 1) (bs.length : Int) = (idx + 1) % (bs.length : Int) :=
      goMod_of_nonneg _ h1
    have hnn : 0 ≤ (idx + 1) % (bs.length : Int) := Int.emod_nonneg _ (by omega)
    have hlt : (idx + 1) % (bs.length : Int) < (bs.length : Int) :=
      Int.emod_lt_of_pos _ hlen
    have htn : ((idx + 1) % (bs.length : Int)).toNat < bs.length := by omega
    have hget : bs.get? ((idx + 1) % (bs.length : Int)).toNat =
        some (bs.get ⟨((idx + 1) % (bs.length : Int)).toNat, htn⟩) :=
      List.get?_eq_get htn
    rw [rrLoop]
    simp only [hw, hg]
    rw [if_pos hnn, hget]
    simp only [hunh _ (bs.get_mem _ _), Bool.false_eq_true, if_false]
    rw [ih (idx + 1) (by omega) (by push_cast; push_cast at h2; omega)]
    congr 2
    push_cast
    ring

theorem rrLoop_healthy_step (bs : List Backend) (hbs : bs ≠ [])
    (hh : ∀ b ∈ bs, b.isHealthy = true) (n : Nat) (idx : Int)
    (h1 : 0 ≤ idx + 1) (h2 : idx + 1 < 2 ^ 31) :
    rrLoop bs idx (n + 1) =
      some (some ((idx + 1) % (bs.length : Int)).toNat, idx + 1) := by
  have hlen : 0 < (bs.length : Int) := by
    exact_mod_cast List.length_pos.mpr hbs
  have hw : wrap32 (idx + 1) = idx + 1 := wrap32_eq_self (by omega) (by omega)
  have hg : goMod (idx + 1) (bs.length : Int) = (idx + 1) % (bs.length : Int) :=
    goMod_of_nonneg _ h1
  have hnn : 0 ≤ (idx + 1) % (bs.length : Int) := Int.emod_nonneg _ (by omega)
  have hlt : (idx + 1) % (bs.length : Int) < (bs.length : Int) :=
    Int.emod_lt_of_pos _ hlen
  have htn : ((idx + 1) % (bs.length : Int)).toNat < bs.length := by omega
  have hget : bs.get? ((idx + 1) % (bs.length : Int)).toNat =
      some (bs.get ⟨((idx + 1) % (bs.length : Int)).toNat, htn⟩) :=
    List.get?_eq_get htn
  rw [rrLoop]
  simp only [hw, hg]
  rw [if_pos hnn, hget]
  simp only [hh _ (bs.get_mem _ _), if_true]

theorem rrLoop_advance (bs : List Backend) (hbs : bs ≠ []) :
    ∀ (n : Nat) (idx : Int), 0 ≤ idx + 1 → idx + n < 2 ^ 31 →
      ∃ (res : Option Nat) (k : Nat), rrLoop bs idx n = some (res, idx + k) ∧
        k ≤ n ∧ (0 < n → 0 < k) ∧ (res = none → k = n) := by
  intro n
  induction n with
  | zero =>
    intro idx h1 h2
    exact ⟨none, 0, by simp [rrLoop], le_refl 0, by omega, fun _ => rfl⟩
  | succ n ih =>
    intro idx h1 h2
    have hlen : 0 < (bs.length : Int) := by
      exact_mod_cast List.length_pos.mpr hbs
    have hw : wrap32 (idx + 1) = idx + 1 := wrap32_eq_self (by omega) (by omega)
    have hg : goMod (idx + 1) (bs.length : Int) = (idx + 1) % (bs.length : Int) :=
      goMod_of_nonneg _ h1
    have hnn : 0 ≤ (idx + 1) % (bs.length : Int) := Int.emod_nonneg _ (by omega)
    have hlt : (idx + 1) % (bs.length : Int) < (bs.length : Int) :=
      Int.emod_lt_of_pos _ hlen
    have htn : ((idx + 1) % (bs.length : Int)).toNat < bs.length := by omega
    have hget : bs.get? ((idx + 1) % (bs.length : Int)).toNat =
        some (bs.get ⟨((idx + 1) % (bs.length : Int)).toNat, htn⟩) :=
      List.get?_eq_get htn
    rw [rrLoop]
    simp only [hw, hg]
    rw [if_pos hnn, hget]
    by_cases hcand : (bs.get ⟨((idx + 1) % (bs.length : Int)).toNat, htn⟩).isHealthy = true
    · refine ⟨some ((idx + 1) % (bs.length : Int)).toNat, 1, ?_, by omega, by omega, by simp⟩
      simp only [hcand, if_true]
      norm_num
    · obtain ⟨res, k, hr, hk, hpos, hnone⟩ :=
        ih (idx + 1) (by omega) (by push_cast at h2 ⊢; omega)
      refine ⟨res, k + 1, ?_, by omega, by omega, fun hres => by
        have := hnone hres; omega⟩
      simp only [hcand, if_false]
      rw [hr]
      push_cast
      ring_nf

theorem getNext_rr (lb : LoadBalancer) (ca p : String)
    (halgo : lb.algo = .roundRobin) (hroutes : lb.pathRoutes = [])
    (hbs : lb.backends ≠ []) (hcnt : lb.backendCounts ≠ []) :
    GetNextBackend lb ca p =
      (rrLoop lb.backends lb.index lb.backends.length).map fun r =>
        (r.1,
         match r.1 with | some _ => (0 : Int) | none => -1,
         rrAfter lb r.2) := by
  have hlen : lb.backends.length ≠ 0 := fun h => hbs (List.length_eq_zero.mp h)
  have hcl : 0 < lb.backendCounts.length := List.length_pos.mpr hcnt
  rw [GetNextBackend]
  rw [if_neg hlen, hroutes]
  simp only [pathRouteScan, halgo]
  cases hr : rrLoop lb.backends lb.index lb.backends.length with
  | none => simp
  | some r =>
    obtain ⟨found, index'⟩ := r
    cases found with
    | none =>
      simp only [Option.map_some', Option.getD_none]
      rw [if_pos hcl]
      simp [rrAfter, halgo, hroutes]
    | some j =>
      simp only [Option.map_some', Option.getD_none]
      rw [if_pos hcl]
      simp [rrAfter, halgo, hroutes]

theorem pathRouteScan_all_unhealthy (bs : List Backend) (p : String)
    (hunh : ∀ b ∈ bs, b.isHealthy = false) :
    ∀ routes : List (String × Nat), (∀ r ∈ routes, r.2 < bs.length) →
      pathRouteScan bs p routes = some (bs, none) := by
  intro routes
  induction routes with
  | nil => intro _; rfl
  | cons r rest ih =>
    intro hv
    obtain ⟨q, j⟩ := r
    rw [pathRouteScan]
    by_cases hm : startsWithGo p q
    · rw [if_pos hm]
      have hj : j < bs.length := hv (q, j) (by simp)
      have hget : bs.get? j = some (bs.get ⟨j, hj⟩) := List.get?_eq_get hj
      rw [hget]
      simp only [hunh _ (bs.get_mem _ _), Bool.false_eq_true, if_false]
      exact ih (fun r hr => hv r (by simp [hr]))
    · rw [if_neg hm]
      exact ih (fun r hr => hv r (by simp [hr]))

theorem wrrScan_all_unhealthy :
    ∀ (bs : List Backend), (∀ b ∈ bs, b.isHealthy = false) →
      ∀ (i : Nat) (m : Int) (s : Option Nat), wrrScan i m s bs = (bs, s) := by
  intro bs
  induction bs with
  | nil => intro _ i m s; rfl
  | cons b rest ih =>
    intro hunh i m s
    rw [wrrScan]
    simp only [hunh b (by simp), Bool.false_eq_true, if_false]
    rw [ih (fun x hx => hunh x (by simp [hx]))]

theorem bumpAt_ne_nil {xs : List Int} (d : Int) (i : Nat) (h : xs ≠ []) :
    bumpAt d xs i ≠ [] := by
  intro hc
  apply h
  have := congrArg List.length hc
  rw [bumpAt_length] at this
  exact List.length_eq_zero.mp this

theorem getNext_rr_healthy (lb : LoadBalancer) (ca p : String)
    (halgo : lb.algo = .roundRobin) (hroutes : lb.pathRoutes = [])
    (hh : ∀ b ∈ lb.backends, b.isHealthy = true)
    (hbs : lb.backends ≠ []) (hcnt : lb.backendCounts ≠ [])
    (hidx : 0 ≤ lb.index + 1) (hbound : lb.index + 1 < 2 ^ 31) :
    GetNextBackend lb ca p =
      some (some ((lb.index + 1) % (lb.backends.length : Int)).toNat, 0,
        rrAfter lb (lb.index + 1)) := by
  obtain ⟨m, hm⟩ : ∃ m, lb.backends.length = m + 1 := by
    have := List.length_pos.mpr hbs
    exact ⟨lb.backends.length - 1, by omega⟩
  rw [getNext_rr lb ca p halgo hroutes hbs hcnt]
  rw [hm, rrLoop_healthy_step lb.backends hbs hh m lb.index hidx hbound, ← hm]
  rfl

theorem chosenSeq_rr :
    ∀ (n : Nat) (lb : LoadBalancer),
      lb.algo = .roundRobin → lb.pathRoutes = [] →
      (∀ b ∈ lb.backends, b.isHealthy = true) →
      lb.backends ≠ [] → lb.backendCounts ≠ [] →
      0 ≤ lb.index + 1 → lb.index + n < 2 ^ 31 →
      chosenSeq lb n =
        some ((List.range n).map fun (t : Nat) =>
          ((lb.index + 1 + (t : Int)) % (lb.backends.length : Int)).toNat) := by
  intro n
  induction n with
  | zero => intro lb _ _ _ _ _ _ _; rfl
  | succ n ih =>
    intro lb halgo hroutes hh hbs hcnt hidx hbound
    rw [chosenSeq]
    rw [getNext_rr_healthy lb "cl" "/" halgo hroutes hh hbs hcnt hidx
      (by push_cast at hbound; omega)]
    have hrec := ih (rrAfter lb (lb.index + 1)) halgo hroutes hh hbs
      (bumpAt_ne_nil 1 0 hcnt) (by simp only [rrAfter]; omega)
      (by simp only [rrAfter]; push_cast at hbound ⊢; omega)
    show (chosenSeq (rrAfter lb (lb.index + 1)) n).map
        (fun l => ((lb.index + 1) % (lb.backends.length : Int)).toNat :: l) = _
    rw [hrec]
    simp only [rrAfter, Option.map_some', Option.some.injEq,
      List.range_succ_eq_map, List.map_cons, List.map_map, List.cons.injEq]
    constructor
    · norm_num
    · refine List.map_congr_left fun t _ => ?_
      simp only [Function.comp]
      congr 2
      push_cast
      ring

theorem count_range_mod (len a j : Nat) (hlen : 0 < len) (hj : j < len) :
    (((List.range len).map fun t => (a + t) % len).count j) = 1 := by
  have hnd : (((List.range len).map fun t => (a + t) % len)).Nodup := by
    refine List.Nodup.map_on ?_ (List.nodup_range _)
    intro x hx y hy hxy
    have hx' : x < len := List.mem_range.mp hx
    have hy' : y < len := List.mem_range.mp hy
    have hxm : x % len = y % len := Nat.ModEq.add_left_cancel' a hxy
    rwa [Nat.mod_eq_of_lt hx', Nat.mod_eq_of_lt hy'] at hxm
  have hmem : j ∈ (List.range len).map fun t => (a + t) % len := by
    refine List.mem_map.mpr
      ⟨(j + len - a % len) % len, List.mem_range.mpr (Nat.mod_lt _ hlen), ?_⟩
    have ht1 : a % len ≤ a := Nat.mod_le a len
    have ht2 : a % len < len := Nat.mod_lt a hlen
    have hdvd : len ∣ a - a % len := by
      have := Nat.div_add_mod a len
      exact ⟨a / len, by omega⟩
    have key : a + (j + len - a % len) ≡ j [MOD len] := by
      have hsplit : a + (j + len - a % len) = (a - a % len) + j + len := by omega
      rw [hsplit]
      have e1 : a - a % len ≡ 0 [MOD len] := (Nat.modEq_zero_iff_dvd).mpr hdvd
      have e2 : len ≡ 0 [MOD len] := (Nat.modEq_zero_iff_dvd).mpr dvd_rfl
      calc (a - a % len) + j + len ≡ 0 + j + 0 [MOD len] := (e1.add_right j).add e2
        _ = j := by omega
    have hfull : a + (j + len - a % len) % len ≡ j [MOD len] :=
      ((Nat.mod_modEq (j + len - a % len) len).add_left a).trans key
    have : (a + (j + len - a % len) % len) % len = j % len := hfull
    rwa [Nat.mod_eq_of_lt hj] at this
  exact List.count_eq_one_of_mem hnd hmem

theorem map_active_modifyAt (f : Backend → Backend) (d : Int)
    (hf : ∀ b, (f b).activeConnections = b.activeConnections + d) :
    ∀ (bs : List Backend) (j : Nat),
      (modifyAt f bs j).map (·.activeConnections) =
        bumpAt d (bs.map (·.activeConnections)) j := by
  intro bs
  induction bs with
  | nil => intro j; rfl
  | cons b rest ih =>
    intro j
    cases j with
    | zero => simp [modifyAt, bumpAt, hf]
    | succ n => simp [modifyAt, bumpAt, ih n]

theorem map_active_modifyAt_keep (f : Backend → Backend)
    (hf : ∀ b, (f b).activeConnections = b.activeConnections) :
    ∀ (bs : List Backend) (j : Nat),
      (modifyAt f bs j).map (·.activeConnections) = bs.map (·.activeConnections) := by
  intro bs
  induction bs with
  | nil => intro j; rfl
  | cons b rest ih =>
    intro j
    cases j with
    | zero => simp [modifyAt, hf]
    | succ n => simp [modifyAt, ih n]

theorem bumpAt_bumpAt_cancel :
    ∀ (xs : List Int) (j : Nat), bumpAt (-1) (bumpAt 1 xs j) j = xs := by
  intro xs
  induction xs with
  | nil => intro j; rfl
  | cons x rest ih =>
    intro j
    cases j with
    | zero => simp [bumpAt]
    | succ n => simp [bumpAt, ih n]

theorem wrrScan_map_active :
    ∀ (bs : List Backend) (i : Nat) (m : Int) (s : Option Nat),
      ((wrrScan i m s bs).1).map (·.activeConnections) =
        bs.map (·.activeConnections) := by
  intro bs
  induction bs with
  | nil => intro i m s; rfl
  | cons b rest ih =>
    intro i m s
    rw [wrrScan]
    by_cases hb : b.isHealthy
    · simp only [hb, if_true]
      simp [ih]
    · simp only [hb, Bool.false_eq_true, if_false]
      simp [ih]

theorem wrr_step0 (cc b0 b1 : Int) :
    GetNextBackend (wrrLB 0 0 cc b0 b1) "cl" "/" =
      some (some 0, 0, wrrLB (-1) 1 (cc + 1) (b0 + 1) b1) := rfl

theorem wrr_step1 (cc b0 b1 : Int) :
    GetNextBackend (wrrLB (-1) 1 cc b0 b1) "cl" "/" =
      some (some 0, 0, wrrLB (-2) 2 (cc + 1) (b0 + 1) b1) := rfl

theorem wrr_step2 (cc b0 b1 : Int) :
    GetNextBackend (wrrLB (-2) 2 cc b0 b1) "cl" "/" =
      some (some 1, 1, wrrLB 1 (-1) (cc + 1) b0 (b1 + 1)) := rfl

theorem wrr_step3 (cc b0 b1 : Int) :
    GetNextBackend (wrrLB 1 (-1) cc b0 b1) "cl" "/" =
      some (some 0, 0, wrrLB 0 0 (cc + 1) (b0 + 1) b1) := rfl

theorem wrrPat_add_four (n : Nat) : wrrPat (n + 4) = wrrPat n := by
  simp [wrrPat, Nat.add_mod_right]

theorem nthPick_wrr :
    ∀ (n r : Nat) (cc b0 b1 : Int), r < 4 →
      nthPick (wrrLB (cwA r) (cwB r) cc b0 b1) n = some (wrrPat (r + n)) := by
  intro n
  induction n with
  | zero =>
    intro r cc b0 b1 hr
    interval_cases r
    · rw [nthPick, show wrrLB (cwA 0) (cwB 0) cc b0 b1 = wrrLB 0 0 cc b0 b1 from rfl,
        wrr_step0]
      rfl
    · rw [nthPick, show wrrLB (cwA 1) (cwB 1) cc b0 b1 = wrrLB (-1) 1 cc b0 b1 from rfl,
        wrr_step1]
      rfl
    · rw [nthPick, show wrrLB (cwA 2) (cwB 2) cc b0 b1 = wrrLB (-2) 2 cc b0 b1 from rfl,
        wrr_step2]
      rfl
    · rw [nthPick, show wrrLB (cwA 3) (cwB 3) cc b0 b1 = wrrLB 1 (-1) cc b0 b1 from rfl,
        wrr_step3]
      rfl
  | succ n ih =>
    intro r cc b0 b1 hr
    interval_cases r
    · rw [show 0 + (n + 1) = 1 + n from by omega]
      rw [nthPick, show wrrLB (cwA 0) (cwB 0) cc b0 b1 = wrrLB 0 0 cc b0 b1 from rfl,
        wrr_step0]
      exact ih 1 (cc + 1) (b0 + 1) b1 (by omega)
    · rw [show 1 + (n + 1) = 2 + n from by omega]
      rw [nthPick, show wrrLB (cwA 1) (cwB 1) cc b0 b1 = wrrLB (-1) 1 cc b0 b1 from rfl,
        wrr_step1]
      exact ih 2 (cc + 1) (b0 + 1) b1 (by omega)
    · rw [show 2 + (n + 1) = 3 + n from by omega]
      rw [nthPick, show wrrLB (cwA 2) (cwB 2) cc b0 b1 = wrrLB (-2) 2 cc b0 b1 from rfl,
        wrr_step2]
      exact ih 3 (cc + 1) b0 (b1 + 1) (by omega)
    · rw [show 3 + (n + 1) = n + 4 from by omega, wrrPat_add_four,
        show wrrPat n = wrrPat (0 + n) from by rw [Nat.zero_add]]
      rw [nthPick, show wrrLB (cwA 3) (cwB 3) cc b0 b1 = wrrLB 1 (-1) cc b0 b1 from rfl,
        wrr_step3]
      exact ih 0 (cc + 1) (b0 + 1) b1 (by omega)

/-! ## Claim theorems -/

/-- C1 (code bug).  The request path `"/api/users"` prefix-matches the
declared route of the healthy backend 0, yet `GetNextBackend` returns
backend 1: the algorithm switch runs after the path-routing loop and
overwrites the path-matched selection, so the path-prefix override does
not short-circuit the algorithm switch. -/
theorem c1_path_override_lost :
    lbC1.pathRoutes = [("/api", 0)] ∧
    (lbC1.backends.get? 0).map (·.isHealthy) = some true ∧
    startsWithGo "/api/users" "/api" = true ∧
    chosenOf (GetNextBackend lbC1 "cl" "/api/users") = some 1 := by decide

/-- C2 (code bug).  With the active-connection count at the configured
maximum, the accept loop of `main.go` still selects a backend and
reaches `net.Dial`: no branch of the loop compares `lb.ConnectionCount`
with `Config.MaxConnections`, so over-capacity clients are not
rejected. -/
theorem c2_admission_check_missing :
    lbC2.config.maxConnections ≤ lbC2.connectionCount ∧
    (acceptStep false lbC2 "9.9.9.9:1").dialedAddress = some "a:1" := by decide

/-- C4 (code bug).  When the configured health-check frequency is zero,
`StartHealthChecks` computes `freq * 19` with `freq = 0`, so the probe
interval stays zero rather than becoming a positive default. -/
theorem c4_zero_freq_default_is_zero :
    healthCheckFreq 0 = 0 ∧ ¬ 0 < healthCheckFreq 0 := by decide

/-- C8 (code bug).  The round-robin arm declares a new `idx` with `:=`,
shadowing the function-level `idx`: here the loop chooses backend 1, but
the function returns index 0 and increments `BackendCounts[0]`, so the
returned index is not the chosen backend's position and the wrong
served counter advances. -/
theorem c8_round_robin_index_mismatch :
    GetNextBackend lbC8 "cl" "/" =
      some (some 1, 0,
        { lbC8 with index := 1, connectionCount := 1, backendCounts := [1, 0] }) ∧
    lbC8.backends.get? 1 ≠ lbC8.backends.get? 0 := by decide

/-- C3 counterexample.  With no healthy backend, `GetNextBackend`
returns a nil backend as claimed — but the global connection counter
and `BackendCounts[0]` are each incremented before the nil check, so
the state is not left unchanged. -/
theorem c3_counterexample :
    GetNextBackend lbC3 "cl" "/" =
      some (none, -1,
        { lbC3 with index := 1, connectionCount := 1, backendCounts := [1] }) ∧
    lbC3.connectionCount = 0 ∧ lbC3.backendCounts = [0] := by decide

/-- C7 counterexample.  Skipping the unhealthy backend advances the
rotation counter twice in a single dispatch decision (from 1 to 3), not
exactly once. -/
theorem c7_counterexample :
    GetNextBackend lbC7 "cl" "/" =
      some (some 1, 0,
        { lbC7 with index := 3, connectionCount := 1, backendCounts := [1, 0] }) ∧
    lbC7.index = 1 := by decide

/-- C9 counterexample.  The round-robin selection never increments the
chosen backend's `ActiveConnections` (it stays 5), yet the release
callback decrements it: after selecting and releasing once, the count
is 4, below its pre-selection value — release decrements a count that
was never incremented. -/
theorem c9_counterexample :
    (GetNextBackend lbC9 "cl" "/").map (fun r => releaseConn r.2.2 0) =
      some { lbC9 with
        index := 0
        backendCounts := [1]
        backends := [mkB "a:1" true 0 0 4 []] } ∧
    chosenOf (GetNextBackend lbC9 "cl" "/") = some 0 ∧
    lbC9.backends.map (·.activeConnections) = [5] := by decide

/-- C10 (confirmed).  With an empty backend slice, `GetNextBackend`
returns a nil backend, index `-1` and the unchanged state, via the
early guard — before any modulus, any slice access or any counter
mutation. -/
theorem c10_empty_backends_safe (lb : LoadBalancer) (ca p : String)
    (h : lb.backends = []) :
    GetNextBackend lb ca p = some (none, -1, lb) := by
  simp [GetNextBackend, h]

/-- C10 witness: the empty-slice guard at a concrete state. -/
theorem c10_witness :
    GetNextBackend lbEmpty "cl" "/x" = some (none, -1, lbEmpty) :=
  c10_empty_backends_safe lbEmpty "cl" "/x" rfl


/-- C3 (corrected, amended claim).  Under round robin or weighted round
robin with no healthy backend, `GetNextBackend` returns a nil backend
with index `-1` — but, the claim's "state unchanged" part corrected,
the global connection counter is incremented by one and
`BackendCounts[0]` is incremented by one (the increments at the bottom
of the function run before the nil check); the backends themselves
(health, active counts, weights) are untouched. -/
theorem c3_amended_counters_advance (lb : LoadBalancer) (ca p : String)
    (halgo : lb.algo = .roundRobin ∨ lb.algo = .weightedRoundRobin)
    (hunh : ∀ b ∈ lb.backends, b.isHealthy = false)
    (hbs : lb.backends ≠ []) (hcnt : lb.backendCounts ≠ [])
    (hroutesOK : ∀ r ∈ lb.pathRoutes, r.2 < lb.backends.length)
    (hidx : 0 ≤ lb.index + 1)
    (hbound : lb.index + lb.backends.length < 2 ^ 31) :
    ∃ lb', GetNextBackend lb ca p = some (none, -1, lb') ∧
      lb'.backends = lb.backends ∧
      lb'.connectionCount = lb.connectionCount + 1 ∧
      lb'.backendCounts = bumpAt 1 lb.backendCounts 0 := by
  have hlen0 : lb.backends.length ≠ 0 := fun h => hbs (List.length_eq_zero.mp h)
  have hcl : 0 < lb.backendCounts.length := List.length_pos.mpr hcnt
  rcases halgo with h | h
  · simp only [GetNextBackend, if_neg hlen0,
      pathRouteScan_all_unhealthy _ _ hunh _ hroutesOK, h,
      rrLoop_all_unhealthy lb.backends hbs hunh _ _ hidx hbound,
      Option.map_some', Option.getD_none, if_pos hcl]
    exact ⟨_, rfl, rfl, rfl, rfl⟩
  · simp only [GetNextBackend, if_neg hlen0,
      pathRouteScan_all_unhealthy _ _ hunh _ hroutesOK, h,
      wrrScan_all_unhealthy lb.backends hunh 0 (-1) none,
      Option.getD_none, if_pos hcl]
    exact ⟨_, rfl, rfl, rfl, rfl⟩

/-- C3 witness: the amended claim at the concrete one-unhealthy-backend
state. -/
theorem c3_witness :
    ∃ lb', GetNextBackend lbC3 "cl" "/" = some (none, -1, lb') ∧
      lb'.backends = lbC3.backends ∧
      lb'.connectionCount = lbC3.connectionCount + 1 ∧
      lb'.backendCounts = bumpAt 1 lbC3.backendCounts 0 :=
  c3_amended_counters_advance lbC3 "cl" "/" (Or.inl rfl) (by decide) (by decide)
    (by decide) (by decide) (by decide) (by decide)

/-- C5 (confirmed).  Weights {3, 1}, both backends healthy, sequential
selections from the zeroed start state: every window of 4 consecutive
selections contains exactly 3 picks of the weight-3 backend (position
0) and exactly 1 pick of the weight-1 backend (position 1), and no 4
consecutive selections pick the same backend. -/
theorem c5_weighted_round_robin_pattern (k : Nat) :
    ([nthPick lbC5 k, nthPick lbC5 (k + 1), nthPick lbC5 (k + 2),
        nthPick lbC5 (k + 3)].count (some 0) = 3 ∧
      [nthPick lbC5 k, nthPick lbC5 (k + 1), nthPick lbC5 (k + 2),
        nthPick lbC5 (k + 3)].count (some 1) = 1) ∧
    ¬(nthPick lbC5 k = nthPick lbC5 (k + 1) ∧
      nthPick lbC5 (k + 1) = nthPick lbC5 (k + 2) ∧
      nthPick lbC5 (k + 2) = nthPick lbC5 (k + 3)) := by
  have hp : ∀ m : Nat, nthPick lbC5 m = some (wrrPat m) := by
    intro m
    have h := nthPick_wrr m 0 0 0 0 (by omega)
    rw [show wrrLB (cwA 0) (cwB 0) 0 0 0 = lbC5 from rfl, Nat.zero_add] at h
    exact h
  rw [hp k, hp (k + 1), hp (k + 2), hp (k + 3)]
  have h4 : k % 4 = 0 ∨ k % 4 = 1 ∨ k % 4 = 2 ∨ k % 4 = 3 := by omega
  rcases h4 with h | h | h | h
  · rw [show wrrPat k = 0 from by unfold wrrPat; rw [if_neg (by omega)],
      show wrrPat (k + 1) = 0 from by unfold wrrPat; rw [if_neg (by omega)],
      show wrrPat (k + 2) = 1 from by unfold wrrPat; rw [if_pos (by omega)],
      show wrrPat (k + 3) = 0 from by unfold wrrPat; rw [if_neg (by omega)]]
    decide
  · rw [show wrrPat k = 0 from by unfold wrrPat; rw [if_neg (by omega)],
      show wrrPat (k + 1) = 1 from by unfold wrrPat; rw [if_pos (by omega)],
      show wrrPat (k + 2) = 0 from by unfold wrrPat; rw [if_neg (by omega)],
      show wrrPat (k + 3) = 0 from by unfold wrrPat; rw [if_neg (by omega)]]
    decide
  · rw [show wrrPat k = 1 from by unfold wrrPat; rw [if_pos (by omega)],
      show wrrPat (k + 1) = 0 from by unfold wrrPat; rw [if_neg (by omega)],
      show wrrPat (k + 2) = 0 from by unfold wrrPat; rw [if_neg (by omega)],
      show wrrPat (k + 3) = 0 from by unfold wrrPat; rw [if_neg (by omega)]]
    decide
  · rw [show wrrPat k = 0 from by unfold wrrPat; rw [if_neg (by omega)],
      show wrrPat (k + 1) = 0 from by unfold wrrPat; rw [if_neg (by omega)],
      show wrrPat (k + 2) = 0 from by unfold wrrPat; rw [if_neg (by omega)],
      show wrrPat (k + 3) = 1 from by unfold wrrPat; rw [if_pos (by omega)]]
    decide

/-- C6 (confirmed).  Round robin with every backend healthy: over
`N = len(Backends)` consecutive sequential dispatches, each backend
position is chosen exactly once. -/
theorem c6_round_robin_uniform_cycle (lb : LoadBalancer)
    (halgo : lb.algo = .roundRobin)
    (hroutes : lb.pathRoutes = [])
    (hh : ∀ b ∈ lb.backends, b.isHealthy = true)
    (hbs : lb.backends ≠ []) (hcnt : lb.backendCounts ≠ [])
    (hidx : 0 ≤ lb.index + 1)
    (hbound : lb.index + lb.backends.length < 2 ^ 31) :
    ∃ picks, chosenSeq lb lb.backends.length = some picks ∧
      picks.length = lb.backends.length ∧
      ∀ j < lb.backends.length, picks.count j = 1 := by
  refine ⟨_, chosenSeq_rr lb.backends.length lb halgo hroutes hh hbs hcnt hidx hbound,
    by simp, ?_⟩
  intro j hj
  have hbridge : ∀ t : Nat,
      ((lb.index + 1 + (t : Int)) % (lb.backends.length : Int)).toNat
        = ((lb.index + 1).toNat + t) % lb.backends.length := by
    intro t
    have ha : ((lb.index + 1).toNat : Int) = lb.index + 1 := Int.toNat_of_nonneg hidx
    conv_lhs => rw [← ha, ← Nat.cast_add, ← Int.natCast_mod]
    exact Int.toNat_natCast _
  have hmaps : (List.range lb.backends.length).map
      (fun (t : Nat) => ((lb.index + 1 + (t : Int)) % (lb.backends.length : Int)).toNat)
      = (List.range lb.backends.length).map
      (fun t => ((lb.index + 1).toNat + t) % lb.backends.length) :=
    List.map_congr_left fun t _ => hbridge t
  rw [hmaps]
  exact count_range_mod lb.backends.length _ j (List.length_pos.mpr hbs) hj

/-- C6 witness: three healthy backends from the initial rotation
counter. -/
theorem c6_witness :
    ∃ picks, chosenSeq lbC6w lbC6w.backends.length = some picks ∧
      picks.length = lbC6w.backends.length ∧
      ∀ j < lbC6w.backends.length, picks.count j = 1 :=
  c6_round_robin_uniform_cycle lbC6w rfl rfl (by decide) (by decide) (by decide)
    (by decide) (by decide)

/-- C7 (corrected, amended claim).  Under round robin the rotation
counter advances once per retry attempt, not once per dispatch
decision: a decision advances it `k` times with `1 ≤ k ≤ N`, where
`k - 1` unhealthy candidates were skipped, and exactly `N` times when
selection fails. -/
theorem c7_amended_index_per_attempt (lb : LoadBalancer) (ca p : String)
    (halgo : lb.algo = .roundRobin) (hroutes : lb.pathRoutes = [])
    (hbs : lb.backends ≠ []) (hcnt : lb.backendCounts ≠ [])
    (hidx : 0 ≤ lb.index + 1)
    (hbound : lb.index + lb.backends.length < 2 ^ 31) :
    ∃ (c : Option Nat) (i : Int) (lb' : LoadBalancer) (k : Nat),
      GetNextBackend lb ca p = some (c, i, lb') ∧
      lb'.index = lb.index + k ∧ 1 ≤ k ∧ k ≤ lb.backends.length ∧
      (c = none → k = lb.backends.length) := by
  obtain ⟨res, k, hr, hk, hpos, hnone⟩ :=
    rrLoop_advance lb.backends hbs lb.backends.length lb.index hidx hbound
  have hlpos : 0 < lb.backends.length := List.length_pos.mpr hbs
  have hk1 : 0 < k := hpos hlpos
  rw [getNext_rr lb ca p halgo hroutes hbs hcnt, hr]
  cases res with
  | none =>
    exact ⟨none, -1, rrAfter lb (lb.index + k), k, rfl, by simp [rrAfter],
      hk1, hk, fun _ => hnone rfl⟩
  | some j =>
    exact ⟨some j, 0, rrAfter lb (lb.index + k), k, rfl, by simp [rrAfter],
      hk1, hk, by simp⟩

/-- C7 witness: the amended claim at the concrete skip-one-unhealthy
state. -/
theorem c7_witness :
    ∃ (c : Option Nat) (i : Int) (lb' : LoadBalancer) (k : Nat),
      GetNextBackend lbC7 "cl" "/" = some (c, i, lb') ∧
      lb'.index = lbC7.index + k ∧ 1 ≤ k ∧ k ≤ lbC7.backends.length ∧
      (c = none → k = lbC7.backends.length) :=
  c7_amended_index_per_attempt lbC7 "cl" "/" rfl rfl (by decide) (by decide)
    (by decide) (by decide)

/-- C9 (corrected, amended claim).  For every successful call (no path
routes configured), invoking the release callback once restores the
global connection counter to its pre-selection value; the chosen
backend's active-connection count is restored only under least
connections (the one algorithm that increments it at selection) —
under round robin, IP hash and weighted round robin the release
decrements the chosen backend's active count to one below its
pre-selection value. -/
theorem c9_amended_release_accounting (lb : LoadBalancer) (ca p : String) (j : Nat) (i : Int)
    (lb' : LoadBalancer) (hroutes : lb.pathRoutes = [])
    (hcall : GetNextBackend lb ca p = some (some j, i, lb')) :
    (releaseConn lb' j).connectionCount = lb.connectionCount ∧
    (lb.algo = .leastConnections →
      (releaseConn lb' j).backends.map (·.activeConnections) =
        lb.backends.map (·.activeConnections)) ∧
    (lb.algo ≠ .leastConnections →
      (releaseConn lb' j).backends.map (·.activeConnections) =
        bumpAt (-1) (lb.backends.map (·.activeConnections)) j) := by
  have hdec : ∀ b : Backend,
      ((fun (b : Backend) =>
        { b with activeConnections := b.activeConnections - 1 }) b).activeConnections
        = b.activeConnections + (-1) := by
    intro b; simp; ring
  have hinc : ∀ b : Backend,
      ((fun (b : Backend) =>
        { b with activeConnections := b.activeConnections + 1 }) b).activeConnections
        = b.activeConnections + 1 := fun b => rfl
  rw [GetNextBackend] at hcall
  by_cases hlen : lb.backends.length = 0
  · rw [if_pos hlen] at hcall
    exact absurd hcall (by simp)
  rw [if_neg hlen, hroutes] at hcall
  simp only [pathRouteScan] at hcall
  cases halg : lb.algo with
  | roundRobin =>
    simp only [halg] at hcall
    cases hrr : rrLoop lb.backends lb.index lb.backends.length with
    | none => simp [hrr] at hcall
    | some r =>
      obtain ⟨found, index'⟩ := r
      simp only [hrr, Option.map_some', Option.getD_none] at hcall
      cases found with
      | none =>
        split at hcall
        · simp at hcall
        · simp at hcall
      | some j0 =>
        split at hcall
        · simp only [Option.some.injEq, Prod.mk.injEq] at hcall
          obtain ⟨hj, hi, hlb⟩ := hcall
          subst hj
          subst hlb
          refine ⟨by simp [releaseConn], by simp [halg], fun _ => ?_⟩
          simp only [releaseConn]
          exact map_active_modifyAt _ (-1) hdec lb.backends _
        · simp at hcall
  | leastConnections =>
    simp only [halg] at hcall
    rcases hbs : lb.backends with _ | ⟨b₀, rest⟩
    · rw [hbs] at hlen; simp at hlen
    · rw [hbs] at hcall
      simp only at hcall
      split at hcall
      · simp only [Option.some.injEq, Prod.mk.injEq] at hcall
        obtain ⟨hj, hi, hlb⟩ := hcall
        subst hj
        subst hlb
        refine ⟨by simp [releaseConn], fun _ => ?_, by simp [halg]⟩
        simp only [releaseConn]
        rw [map_active_modifyAt _ (-1) hdec,
          map_active_modifyAt _ 1 hinc,
          bumpAt_bumpAt_cancel]
      · simp at hcall
  | ipHash =>
    simp only [halg] at hcall
    split at hcall
    · simp only [Option.some.injEq, Prod.mk.injEq] at hcall
      obtain ⟨hj, hi, hlb⟩ := hcall
      subst hj
      subst hlb
      refine ⟨by simp [releaseConn], by simp [halg], fun _ => ?_⟩
      simp only [releaseConn]
      exact map_active_modifyAt _ (-1) hdec lb.backends _
    · simp at hcall
  | weightedRoundRobin =>
    simp only [halg] at hcall
    rcases hws : wrrScan 0 (-1) none lb.backends with ⟨bs₂, sel⟩
    simp only [hws] at hcall
    cases sel with
    | none =>
      simp at hcall
    | some j0 =>
      simp only [Option.getD_none] at hcall
      split at hcall
      · simp only [Option.some.injEq, Prod.mk.injEq] at hcall
        obtain ⟨hj, hi, hlb⟩ := hcall
        subst hj
        subst hlb
        refine ⟨by simp [releaseConn], by simp [halg], fun _ => ?_⟩
        simp only [releaseConn]
        rw [map_active_modifyAt _ (-1) hdec,
          map_active_modifyAt_keep (fun b =>
            { b with currentWeight :=
                b.currentWeight - (lb.backends.map (·.weight)).sum })
            (fun b => rfl)]
        have h2 : bs₂.map (·.activeConnections) =
            lb.backends.map (·.activeConnections) := by
          have := wrrScan_map_active lb.backends 0 (-1) none
          rw [hws] at this
          exact this
        rw [h2]
      · simp at hcall

/-- C9 witness: the amended claim at a concrete least-connections
call. -/
theorem c9_witness :
    (releaseConn lbW9After 0).connectionCount = lbW9.connectionCount ∧
    (lbW9.algo = .leastConnections →
      (releaseConn lbW9After 0).backends.map (·.activeConnections) =
        lbW9.backends.map (·.activeConnections)) ∧
    (lbW9.algo ≠ .leastConnections →
      (releaseConn lbW9After 0).backends.map (·.activeConnections) =
        bumpAt (-1) (lbW9.backends.map (·.activeConnections)) 0) :=
  c9_amended_release_accounting lbW9 "cl" "/" 0 0 lbW9After rfl (by decide)

end Akash
